import Mathlib

/-
Verification of the JSON document model of `libs/yocto/yocto_commonio.h`:
the owning tagged-union tree node `json_value`, the non-owning view layer
`json_view` / `json_cview`, navigation and mutation operations, the path
resolver `compute_path`, and the typed conversion protocol
`get_value` / `set_value`.

Modelling conventions (shallow embedding):
  * `json_value` is an inductive with one constructor per `json_type` kind,
    carrying the corresponding payload.  Machine `int64_t` / `uint64_t`
    payloads are modelled as `Int` / `Nat`; the explicit C++ casts between
    them are modelled by wrapping modulo `2 ^ 64` (resp. `2 ^ 32`) where the
    source performs a narrowing or sign-changing cast.  `double` payloads
    are modelled as exact rationals `ℚ`: the C++ code only stores and
    reloads doubles (no arithmetic), and integer-to-double conversions are
    modelled as exact (the spec and the claims only exercise small values
    such as 5, for which the C++ conversion is also exact).
    `json_binary` (a byte vector) is modelled as `List Nat`.
  * a C++ pointer to a node inside a tree is, up to identity, a position in
    that tree, so a `json_cview { value, root }` is modelled as the root
    tree plus an optional access path (`none` models a null `value`
    pointer, i.e. an invalid view).  The `root` pointer of a view built by
    this API is never null, so it is modelled as always present.
  * functions that throw `json_error` (hard failures) return
    `Except String _` with the thrown message; functions that signal
    failure by `bool` plus an out-parameter return the out-parameter
    functionally, as a tuple component.
-/

namespace yocto

/-- Kinds of a json value, mirroring `enum struct json_type`. -/
inductive json_type where
  | null
  | integer
  | unsigned_
  | real
  | boolean
  | string_
  | array
  | object
  | binary
deriving DecidableEq, Repr

/-- The owning tagged tree node, mirroring `struct json_value`: one active
payload at a time, discriminated by `json_type`.  `_array` is a
`vector<json_value>`, `_object` a `vector<pair<string, json_value>>` and
`_binary` a `vector<uint8_t>`. -/
inductive json_value where
  | null
  | integer (v : Int)
  | unsigned_ (v : Nat)
  | real (v : ℚ)
  | boolean (v : Bool)
  | string_ (v : String)
  | array (v : List json_value)
  | object (v : List (String × json_value))
  | binary (v : List Nat)

namespace json_value

/-- `json_value::type()`: the discriminant of the active payload. -/
def type : json_value → json_type
  | .null => .null
  | .integer _ => .integer
  | .unsigned_ _ => .unsigned_
  | .real _ => .real
  | .boolean _ => .boolean
  | .string_ _ => .string_
  | .array _ => .array
  | .object _ => .object
  | .binary _ => .binary

/-- `json_value::is_null()`. -/
def is_null (js : json_value) : Bool := js.type = json_type.null

/-- `json_value::is_integer()`. -/
def is_integer (js : json_value) : Bool := js.type = json_type.integer

/-- `json_value::is_unsigned()`. -/
def is_unsigned (js : json_value) : Bool := js.type = json_type.unsigned_

/-- `json_value::is_real()`. -/
def is_real (js : json_value) : Bool := js.type = json_type.real

/-- `json_value::is_bool()`. -/
def is_bool (js : json_value) : Bool := js.type = json_type.boolean

/-- `json_value::is_string()`. -/
def is_string (js : json_value) : Bool := js.type = json_type.string_

/-- `json_value::is_array()`. -/
def is_array (js : json_value) : Bool := js.type = json_type.array

/-- `json_value::is_object()`. -/
def is_object (js : json_value) : Bool := js.type = json_type.object

/-- `json_value::is_binary()`. -/
def is_binary (js : json_value) : Bool := js.type = json_type.binary

/-- The zero/empty payload installed by `set_type` for each kind (the
second `switch` of `json_value::set_type`). -/
def fresh_payload : json_type → json_value
  | .null => .null
  | .integer => .integer 0
  | .unsigned_ => .unsigned_ 0
  | .real => .real 0
  | .boolean => .boolean false
  | .string_ => .string_ ""
  | .array => .array []
  | .object => .object []
  | .binary => .binary []

/-- `json_value::set_type(type)`: releases the old payload and installs the
zero/empty payload of the new kind; never fails.  In the value semantics of
the embedding the released payload simply disappears. -/
def set_type (_ : json_value) (t : json_type) : json_value := fresh_payload t

/-- `json_value::size()`: defined for the four sized kinds, throws
`json_error{"bad json type"}` otherwise. -/
def size : json_value → Except String Nat
  | .string_ s => .ok s.length
  | .array xs => .ok xs.length
  | .object kvs => .ok kvs.length
  | .binary bs => .ok bs.length
  | _ => .error "bad json type"

/-- `json_value::empty()`: implemented in the source as `size() == 0`, so a
thrown `json_error` propagates. -/
def empty (js : json_value) : Except String Bool := do
  pure ((← js.size) == 0)

/-- `json_value::resize(size)`: defined for `string_`, `array` and `binary`
(note: NOT for `object`), throws `json_error{"bad json type"}` otherwise.
String resize pads with the null character, binary resize pads with 0 and
array resize pads with default-constructed (null) values. -/
def resize (js : json_value) (n : Nat) : Except String json_value :=
  match js with
  | .string_ s =>
      .ok (.string_ ⟨s.data.take n ++ List.replicate (n - s.length) '\x00'⟩)
  | .array xs => .ok (.array (xs.take n ++ List.replicate (n - xs.length) .null))
  | .binary bs => .ok (.binary (bs.take n ++ List.replicate (n - bs.length) 0))
  | _ => .error "bad json type"

/-- `json_value::reserve(size)`: defined for the four sized kinds (a
semantic no-op), throws `json_error{"bad json type"}` otherwise. -/
def reserve (js : json_value) (_ : Nat) : Except String Unit :=
  match js with
  | .string_ _ => .ok ()
  | .array _ => .ok ()
  | .object _ => .ok ()
  | .binary _ => .ok ()
  | _ => .error "bad json type"

/-- Loop of `json_value::find(key)`: first pair whose key matches, in
storage order. -/
def find_pairs : List (String × json_value) → String → Option json_value
  | [], _ => none
  | (k, v) :: rest, key => if k = key then some v else find_pairs rest key

/-- `json_value::find(key)`: calls `get_object()` (which throws on a
non-object) and returns the value of the first matching pair, or none. -/
def find (js : json_value) (key : String) : Except String (Option json_value) :=
  match js with
  | .object kvs => .ok (find_pairs kvs key)
  | _ => .error "object expected"

/-- Loop underlying `json_value::operator[](key)` followed by an
assignment: overwrite the value of the first pair whose key matches, or
append a new pair at the end (`emplace_back`) when no key matches. -/
def assign_pairs : List (String × json_value) → String → json_value →
    List (String × json_value)
  | [], key, x => [(key, x)]
  | (k, v) :: rest, key, x =>
      if k = key then (k, x) :: rest else (k, v) :: assign_pairs rest key x

/-- The composite statement `js[key] = x` on an owning value:
`operator[](key)` is find-or-emplace-at-end (throwing on a non-object via
`get_object`), and the returned reference is assigned `x`. -/
def assign_at_key (js : json_value) (key : String) (x : json_value) :
    Except String json_value :=
  match js with
  | .object kvs => .ok (.object (assign_pairs kvs key x))
  | _ => .error "object expected"

end json_value

/-- One step of an access path into a `json_value` tree: an index into the
element vector of an `array` node, or an index into the pair vector of an
`object` node.  A C++ pointer to an interior node is modelled by the path
of positions leading to it from the root (pointer identity coincides with
position identity inside one tree). -/
inductive seg where
  | aidx (i : Nat)
  | oidx (i : Nat)
deriving DecidableEq, Repr

/-- An access path: the position a target pointer denotes inside the root
tree. -/
abbrev jpath := List seg

/-- One dereference step of a position. -/
def child : json_value → seg → Option json_value
  | .array xs, .aidx i => xs[i]?
  | .object kvs, .oidx i => kvs[i]?.map Prod.snd
  | _, _ => none

/-- Dereference a full access path. -/
def resolve (js : json_value) : jpath → Option json_value
  | [] => some js
  | s :: p =>
      match child js s with
      | some c => resolve c p
      | none => none

/-- Write a new node at a position (the functional counterpart of mutating
through a target pointer).  On a path that does not resolve, the tree is
returned unchanged; the C++ code never reaches that case because it only
forms views onto existing nodes. -/
def updateAt (js : json_value) (p : jpath) (n : json_value) : json_value :=
  match p with
  | [] => n
  | .aidx i :: rest =>
      match js with
      | .array xs =>
          match xs[i]? with
          | some x => .array (xs.set i (updateAt x rest n))
          | none => js
      | _ => js
  | .oidx i :: rest =>
      match js with
      | .object kvs =>
          match kvs[i]? with
          | some kv => .object (kvs.set i (kv.1, updateAt kv.2 rest n))
          | none => js
      | _ => js

/-- A `json_cview` / `json_view`: the root tree plus the target position;
`none` models the null target pointer of an invalid view.  The pair is
passed to every view operation as two arguments `root tgt`. -/
abbrev jview := Option jpath

/-- The node a view points at, when its target pointer is non-null and
consistent with the root. -/
def view_node (root : json_value) (tgt : jview) : Option json_value :=
  match tgt with
  | some p => resolve root p
  | none => none

/-- `is_valid(json_cview)`: the target pointer is non-null. -/
def is_valid (tgt : jview) : Bool := tgt.isSome

/-- `get_type(json_cview)`: the target kind, or `null` when the view is
invalid (`js.value ? js.value->_type : json_type::null`). -/
def get_type (root : json_value) (tgt : jview) : json_type :=
  match view_node root tgt with
  | some v => v.type
  | none => .null

/-- `set_type(json_view, json_type)`: on a view with a non-null target,
releases the target payload, installs the zero/empty payload of the new
kind and returns true; returns false on an invalid view. -/
def set_type (root : json_value) (tgt : jview) (t : json_type) :
    Bool × json_value :=
  match tgt with
  | some p => (true, updateAt root p (json_value.fresh_payload t))
  | none => (false, root)

/-- `is_null(json_cview)`: note the extra `is_valid` conjunct, absent from
every other view-level kind predicate. -/
def is_null (root : json_value) (tgt : jview) : Bool :=
  is_valid tgt && get_type root tgt = json_type.null

/-- `is_integer(json_cview)`. -/
def is_integer (root : json_value) (tgt : jview) : Bool :=
  get_type root tgt = json_type.integer

/-- `is_unsigned(json_cview)`. -/
def is_unsigned (root : json_value) (tgt : jview) : Bool :=
  get_type root tgt = json_type.unsigned_

/-- `is_real(json_cview)`. -/
def is_real (root : json_value) (tgt : jview) : Bool :=
  get_type root tgt = json_type.real

/-- `is_integral(json_cview)`. -/
def is_integral (root : json_value) (tgt : jview) : Bool :=
  get_type root tgt = json_type.integer ||
  get_type root tgt = json_type.unsigned_

/-- `is_number(json_cview)`. -/
def is_number (root : json_value) (tgt : jview) : Bool :=
  get_type root tgt = json_type.integer ||
  get_type root tgt = json_type.unsigned_ ||
  get_type root tgt = json_type.real

/-- `is_boolean(json_cview)`. -/
def is_boolean (root : json_value) (tgt : jview) : Bool :=
  get_type root tgt = json_type.boolean

/-- `is_string(json_cview)`. -/
def is_string (root : json_value) (tgt : jview) : Bool :=
  get_type root tgt = json_type.string_

/-- `is_array(json_cview)`. -/
def is_array (root : json_value) (tgt : jview) : Bool :=
  get_type root tgt = json_type.array

/-- `is_object(json_cview)`. -/
def is_object (root : json_value) (tgt : jview) : Bool :=
  get_type root tgt = json_type.object

/-- `is_binary(json_cview)`. -/
def is_binary (root : json_value) (tgt : jview) : Bool :=
  get_type root tgt = json_type.binary

/-- `empty(json_cview)`: emptiness of the four sized kinds, `true` for any
other kind (including an invalid view). -/
def empty (root : json_value) (tgt : jview) : Bool :=
  match view_node root tgt with
  | some (.array xs) => xs.isEmpty
  | some (.object kvs) => kvs.isEmpty
  | some (.string_ s) => s.isEmpty
  | some (.binary bs) => bs.isEmpty
  | _ => true

/-- `size(json_cview)`: length of the four sized kinds; for any other kind
(including an invalid view) the C++ source executes `return true;` in a
`size_t`-returning function, which converts to 1. -/
def size (root : json_value) (tgt : jview) : Nat :=
  match view_node root tgt with
  | some (.array xs) => xs.length
  | some (.object kvs) => kvs.length
  | some (.string_ s) => s.length
  | some (.binary bs) => bs.length
  | _ => 1

/-- `array_size(json_cview)`: element count of an array view, 0 otherwise. -/
def array_size (root : json_value) (tgt : jview) : Nat :=
  match view_node root tgt with
  | some (.array xs) => xs.length
  | _ => 0

/-- `get_element(json_view, size_t)`: bounds-checked indexing; an invalid
view (null target, same root) when the view is not an array or the index is
out of range. -/
def get_element_at_idx (root : json_value) (tgt : jview) (idx : Nat) : jview :=
  match tgt with
  | some p =>
      match resolve root p with
      | some (.array xs) => if idx < xs.length then some (p ++ [.aidx idx]) else none
      | _ => none
  | none => none

/-- Loop of `get_element(json_view, string_view)`: index of the first pair
whose key matches. -/
def find_pair_idx (kvs : List (String × json_value)) (key : String) :
    Option Nat :=
  match kvs with
  | [] => none
  | kv :: rest =>
      if kv.1 = key then some 0 else (find_pair_idx rest key).map (· + 1)

/-- `get_element(json_view, string_view)`: first pair with a matching key,
or an invalid view when absent or when the view is not an object. -/
def get_element_at_key (root : json_value) (tgt : jview) (key : String) : jview :=
  match tgt with
  | some p =>
      match resolve root p with
      | some (.object kvs) => (find_pair_idx kvs key).map (fun i => p ++ [.oidx i])
      | _ => none
  | none => none

/-- `insert_element(json_view, string_view)`: find-or-append.  Returns the
possibly-extended tree together with the view onto the found or appended
pair; an invalid view (tree unchanged) when the target is not an object. -/
def insert_element (root : json_value) (tgt : jview) (key : String) :
    jview × json_value :=
  match tgt with
  | some p =>
      match resolve root p with
      | some (.object kvs) =>
          match find_pair_idx kvs key with
          | some i => (some (p ++ [.oidx i]), root)
          | none =>
              (some (p ++ [.oidx kvs.length]),
               updateAt root p (.object (kvs ++ [(key, .null)])))
      | _ => (none, root)
  | none => (none, root)

/-- The conditional `if (path.back() == '/') path.pop_back();` applied by
`_compute_path` to the path returned from a recursive call. -/
def chomp_slash (p : String) : String :=
  if p.back = '/' then p.dropRight 1 else p

mutual

/-- `_compute_path(js, jsv, path)`: recursive search from the node `js`
(which sits at position `cur` of the root) for the target position `tgt`;
pointer equality `js.value == jsv.value` is position equality `cur = tgt`.
Returns the rendered path on success (the C++ out-parameter) or none.  The
null-pointer guard of the C++ entry is handled in `compute_path`. -/
def _compute_path (n : json_value) (cur tgt : jpath) : Option String :=
  if cur = tgt then
    some "/"
  else
    match n with
    | .array xs => _compute_path_arr xs 0 0 cur tgt
    | .object kvs => _compute_path_obj kvs 0 cur tgt
    | _ => none

/-- Array loop of `_compute_path`.  `idx` mirrors the local variable
`auto idx = 0` of the source, which is rendered into the path but never
incremented; `pos` is the actual element position (the pointer the loop
iterator holds), used only for node identity. -/
def _compute_path_arr (xs : List json_value) (idx pos : Nat)
    (cur tgt : jpath) : Option String :=
  match xs with
  | [] => none
  | x :: rest =>
      match _compute_path x (cur ++ [.aidx pos]) tgt with
      | some p => some ("/" ++ toString idx ++ chomp_slash p)
      | none => _compute_path_arr rest idx (pos + 1) cur tgt

/-- Object loop of `_compute_path`: renders the key of the matched pair. -/
def _compute_path_obj (kvs : List (String × json_value)) (pos : Nat)
    (cur tgt : jpath) : Option String :=
  match kvs with
  | [] => none
  | kv :: rest =>
      match _compute_path kv.2 (cur ++ [.oidx pos]) tgt with
      | some p => some ("/" ++ kv.1 ++ chomp_slash p)
      | none => _compute_path_obj rest (pos + 1) cur tgt

end

/-- `compute_path(js)`: search from the root for the target of the view;
the empty string when the view is invalid (null target) or the target is
not found. -/
def compute_path (root : json_value) (tgt : jview) : String :=
  match tgt with
  | some t =>
      match _compute_path root [] t with
      | some p => p
      | none => ""
  | none => ""

/-- `format_error(js, message)`: appends the computed path when it is
resolvable, otherwise falls back to an unqualified message. -/
def format_error (root : json_value) (tgt : jview) (message : String) :
    String :=
  let path := compute_path root tgt
  if path = "" then message ++ " in json" else message ++ " at " ++ path

/-- The C++ cast `(uint64_t)` of a signed 64-bit value. -/
def wrap_u64 (n : Int) : Nat := (n % 2 ^ 64).toNat

/-- The C++ cast `(int64_t)` of an unsigned 64-bit value (two's
complement). -/
def wrap_i64 (n : Int) : Int := (n + 2 ^ 63) % 2 ^ 64 - 2 ^ 63

/-- The C++ cast `(uint32_t)` of an unsigned 64-bit value. -/
def wrap_u32 (n : Nat) : Nat := n % 2 ^ 32

/-- The C++ cast `(int32_t)` of a signed 64-bit value (two's
complement). -/
def wrap_i32 (n : Int) : Int := (n + 2 ^ 31) % 2 ^ 32 - 2 ^ 31

/-- `set_integer(json_view, int64_t)`: `set_type` to integer then store. -/
def set_integer (root : json_value) (tgt : jview) (v : Int) :
    Bool × json_value :=
  match tgt with
  | some p => (true, updateAt root p (.integer v))
  | none => (false, root)

/-- `set_unsigned(json_view, uint64_t)`. -/
def set_unsigned (root : json_value) (tgt : jview) (v : Nat) :
    Bool × json_value :=
  match tgt with
  | some p => (true, updateAt root p (.unsigned_ v))
  | none => (false, root)

/-- `set_real(json_view, double)`. -/
def set_real (root : json_value) (tgt : jview) (v : ℚ) :
    Bool × json_value :=
  match tgt with
  | some p => (true, updateAt root p (.real v))
  | none => (false, root)

/-- `set_boolean(json_view, bool)`. -/
def set_boolean (root : json_value) (tgt : jview) (v : Bool) :
    Bool × json_value :=
  match tgt with
  | some p => (true, updateAt root p (.boolean v))
  | none => (false, root)

/-- `set_string(json_view, const string&)`. -/
def set_string (root : json_value) (tgt : jview) (v : String) :
    Bool × json_value :=
  match tgt with
  | some p => (true, updateAt root p (.string_ v))
  | none => (false, root)

/-- `resize_array(json_view, size_t)`: `vector::resize`, padding with
default-constructed (null) values. -/
def resize_array (root : json_value) (tgt : jview) (n : Nat) :
    Bool × json_value :=
  match tgt with
  | some p =>
      match resolve root p with
      | some (.array xs) =>
          (true,
           updateAt root p (.array (xs.take n ++ List.replicate (n - xs.length) .null)))
      | _ => (false, root)
  | none => (false, root)

/-- `set_array(json_view, size_t)`:
`set_type(js, json_type::array) && resize_array(js, size)`. -/
def set_array_sized (root : json_value) (tgt : jview) (n : Nat) :
    Bool × json_value :=
  let r := set_type root tgt json_type.array
  if r.1 then resize_array r.2 tgt n else (false, r.2)

/-- `get_integral(json_cview, int64_t&)`: integer kind verbatim, unsigned
kind through the `(int64_t)` cast; failure leaves the out-parameter
untouched. -/
def get_integral (root : json_value) (tgt : jview) (value : Int) :
    Bool × Int :=
  match view_node root tgt with
  | some (.integer v) => (true, v)
  | some (.unsigned_ u) => (true, wrap_i64 u)
  | _ => (false, value)

/-- `get_integral(json_cview, uint64_t&)`. -/
def get_integral_u (root : json_value) (tgt : jview) (value : Nat) :
    Bool × Nat :=
  match view_node root tgt with
  | some (.integer v) => (true, wrap_u64 v)
  | some (.unsigned_ u) => (true, u)
  | _ => (false, value)

/-- `get_number(json_cview, double&)`: real verbatim, integer and unsigned
kinds through the `(double)` cast (modelled as the exact embedding into
ℚ). -/
def get_number (root : json_value) (tgt : jview) (value : ℚ) :
    Bool × ℚ :=
  match view_node root tgt with
  | some (.real r) => (true, r)
  | some (.integer v) => (true, (v : ℚ))
  | some (.unsigned_ u) => (true, (u : ℚ))
  | _ => (false, value)

/-- `get_boolean(json_cview, bool&)`: exact-kind match only. -/
def get_boolean (root : json_value) (tgt : jview) (value : Bool) :
    Bool × Bool :=
  match view_node root tgt with
  | some (.boolean b) => (true, b)
  | _ => (false, value)

/-- `get_string(json_cview, string&)`: exact-kind match only. -/
def get_string (root : json_value) (tgt : jview) (value : String) :
    Bool × String :=
  match view_node root tgt with
  | some (.string_ s) => (true, s)
  | _ => (false, value)

/-- The native types the built-in conversion protocol covers: 64/32-bit
signed and unsigned integers, `double`, `float`, `bool`, `string`, and
`vector` / fixed-size `array` of covered types.  In the source this indexing
is performed by C++ overload resolution over the `get_value` / `set_value`
template family. -/
inductive native_type where
  | i64
  | i32
  | u64
  | u32
  | f64
  | f32
  | boolean
  | str
  | vec (t : native_type)
  | arr (t : native_type) (n : Nat)

/-- The Lean carrier of each native type.  Signed integers are `Int` and
unsigned are `Nat` (with the machine range tracked by `representable`
below); `double` and `float` are exact rationals, see the module header. -/
@[reducible] def native : native_type → Type
  | .i64 => Int
  | .i32 => Int
  | .u64 => Nat
  | .u32 => Nat
  | .f64 => ℚ
  | .f32 => ℚ
  | .boolean => Bool
  | .str => String
  | .vec t => List (native t)
  | .arr t n => { l : List (native t) // l.length = n }

/-- The default-constructed value of each native type (what
`vector<T>::emplace_back()` or `T{}` produces). -/
def native_default : (t : native_type) → native t
  | .i64 => (0 : Int)
  | .i32 => (0 : Int)
  | .u64 => (0 : Nat)
  | .u32 => (0 : Nat)
  | .f64 => (0 : ℚ)
  | .f32 => (0 : ℚ)
  | .boolean => false
  | .str => ""
  | .vec _ => []
  | .arr t n => ⟨List.replicate n (native_default t), List.length_replicate n _⟩

/-- `get_value(json_cview, int64_t&, string&)`. -/
def get_value_i64 (root : json_value) (tgt : jview) (value : Int)
    (error : String) : Bool × Int × String :=
  let r := get_integral root tgt value
  if r.1 then (true, r.2, error)
  else (false, value, format_error root tgt "integer expected")

/-- `get_value(json_cview, int32_t&, string&)`: reads an `int64_t` through
the 64-bit overload, then narrows with the `(int32_t)` cast. -/
def get_value_i32 (root : json_value) (tgt : jview) (value : Int)
    (error : String) : Bool × Int × String :=
  let r := get_value_i64 root tgt 0 error
  if r.1 then (true, wrap_i32 r.2.1, r.2.2) else (false, value, r.2.2)

/-- `get_value(json_cview, uint64_t&, string&)`. -/
def get_value_u64 (root : json_value) (tgt : jview) (value : Nat)
    (error : String) : Bool × Nat × String :=
  let r := get_integral_u root tgt value
  if r.1 then (true, r.2, error)
  else (false, value, format_error root tgt "integer expected")

/-- `get_value(json_cview, uint32_t&, string&)`. -/
def get_value_u32 (root : json_value) (tgt : jview) (value : Nat)
    (error : String) : Bool × Nat × String :=
  let r := get_value_u64 root tgt 0 error
  if r.1 then (true, wrap_u32 r.2.1, r.2.2) else (false, value, r.2.2)

/-- `get_value(json_cview, double&, string&)`. -/
def get_value_f64 (root : json_value) (tgt : jview) (value : ℚ)
    (error : String) : Bool × ℚ × String :=
  let r := get_number root tgt value
  if r.1 then (true, r.2, error)
  else (false, value, format_error root tgt "number expected")

/-- `get_value(json_cview, float&, string&)`: reads a `double` through the
64-bit overload, then narrows with the `(float)` cast.  The narrowing is
the parameter `d2f` (IEEE round-to-float, expressed on the embedded
rationals); theorems that depend on its behaviour take the relevant IEEE
facts as hypotheses. -/
def get_value_f32 (d2f : ℚ → ℚ) (root : json_value) (tgt : jview)
    (value : ℚ) (error : String) : Bool × ℚ × String :=
  let r := get_value_f64 root tgt 0 error
  if r.1 then (true, d2f r.2.1, r.2.2) else (false, value, r.2.2)

/-- `get_value(json_cview, bool&, string&)`. -/
def get_value_boolean (root : json_value) (tgt : jview) (value : Bool)
    (error : String) : Bool × Bool × String :=
  let r := get_boolean root tgt value
  if r.1 then (true, r.2, error)
  else (false, value, format_error root tgt "boolean expected")

/-- `get_value(json_cview, string&, string&)`. -/
def get_value_str (root : json_value) (tgt : jview) (value : String)
    (error : String) : Bool × String × String :=
  let r := get_string root tgt value
  if r.1 then (true, r.2, error)
  else (false, value, format_error root tgt "string expected")

/-- `set_value(json_view, int64_t, string&)`. -/
def set_value_i64 (root : json_value) (tgt : jview) (v : Int)
    (error : String) : Bool × json_value × String :=
  let r := set_integer root tgt v
  if r.1 then (true, r.2, error)
  else (false, r.2, format_error r.2 tgt "integer expected")

/-- `set_value(json_view, uint64_t, string&)`. -/
def set_value_u64 (root : json_value) (tgt : jview) (v : Nat)
    (error : String) : Bool × json_value × String :=
  let r := set_unsigned root tgt v
  if r.1 then (true, r.2, error)
  else (false, r.2, format_error r.2 tgt "unsigned expected")

/-- `set_value(json_view, double, string&)`. -/
def set_value_f64 (root : json_value) (tgt : jview) (v : ℚ)
    (error : String) : Bool × json_value × String :=
  let r := set_real root tgt v
  if r.1 then (true, r.2, error)
  else (false, r.2, format_error r.2 tgt "real expected")

/-- `set_value(json_view, bool, string&)`. -/
def set_value_boolean (root : json_value) (tgt : jview) (v : Bool)
    (error : String) : Bool × json_value × String :=
  let r := set_boolean root tgt v
  if r.1 then (true, r.2, error)
  else (false, r.2, format_error r.2 tgt "boolean expected")

/-- `set_value(json_view, const string&, string&)`. -/
def set_value_str (root : json_value) (tgt : jview) (v : String)
    (error : String) : Bool × json_value × String :=
  let r := set_string root tgt v
  if r.1 then (true, r.2, error)
  else (false, r.2, format_error r.2 tgt "string expected")

/-- Element loop of `set_value(json_view, const vector<T>&, string&)`:
`for (auto& v : value) if (!set_value(get_element(js, idx++), v)) return
false;` where the element conversion is the error-less two-argument
overload (`f` receives the current tree and the element index, and returns
success plus the updated tree). -/
def set_elems_local (f : json_value → Nat → α → Bool × json_value) :
    json_value → Nat → List α → Bool × json_value
  | root, _, [] => (true, root)
  | root, i, v :: rest =>
      let r := f root i v
      if r.1 then set_elems_local f r.2 (i + 1) rest else (false, r.2)

/-- Element loop of `set_value(json_view, const array<T, N>&, string&)`:
same iteration, but the element conversion is the three-argument overload,
so the caller's error string is threaded through. -/
def set_elems_err
    (f : json_value → Nat → α → String → Bool × json_value × String) :
    json_value → Nat → String → List α → Bool × json_value × String
  | root, _, error, [] => (true, root, error)
  | root, i, error, v :: rest =>
      let r := f root i v error
      if r.1 then set_elems_err f r.2.1 (i + 1) r.2.2 rest
      else (false, r.2.1, r.2.2)

/-- Element loop of `get_value(json_cview, vector<T>&, string&)`: for each
element view produced by `iterate_array`, `value.emplace_back()` appends a
default-constructed element and the error-less two-argument `get_value`
converts it in place (`f` receives the element index and returns success
plus the in-place-converted element). -/
def get_elems_fresh (f : Nat → Bool × α) :
    List Nat → List α → Bool × List α
  | [], acc => (true, acc)
  | i :: rest, acc =>
      let r := f i
      if r.1 then get_elems_fresh f rest (acc ++ [r.2])
      else (false, acc ++ [r.2])

/-- Element loop of `get_value(json_cview, array<T, N>&, string&)`:
`value.at(idx)` is converted in place by the error-less two-argument
`get_value` (`f` receives the index and the current element). -/
def get_elems_inplace (f : Nat → α → Bool × α) (dflt : α) :
    List Nat → List α → Bool × List α
  | [], l => (true, l)
  | i :: rest, l =>
      let r := f i (l.getD i dflt)
      if r.1 then get_elems_inplace f dflt rest (l.set i r.2)
      else (false, l.set i r.2)

theorem get_elems_inplace_length (f : Nat → α → Bool × α) (dflt : α)
    (idxs : List Nat) (l : List α) :
    (get_elems_inplace f dflt idxs l).2.length = l.length := by
  induction idxs generalizing l with
  | nil => rfl
  | cons i rest ih =>
      simp only [get_elems_inplace]
      split
      · rw [ih, List.length_set]
      · simp [List.length_set]

/-- The `get_value(json_cview, T&, string&)` overload family, indexed by
the native type `T`.  The composite cases mirror the source: the vector
overload clears the output, then converts each element of the array view
in place through the error-less two-argument overload; the fixed-size
array overload checks the length first, then converts each element in
place, also through the two-argument overload. -/
def get_value (d2f : ℚ → ℚ) :
    (t : native_type) → json_value → jview → native t → String →
      Bool × native t × String
  | .i64 => get_value_i64
  | .i32 => get_value_i32
  | .u64 => get_value_u64
  | .u32 => get_value_u32
  | .f64 => get_value_f64
  | .f32 => get_value_f32 d2f
  | .boolean => get_value_boolean
  | .str => get_value_str
  | .vec t => fun root tgt value error =>
      match tgt with
      | some p =>
          match resolve root p with
          | some (.array xs) =>
              let r := get_elems_fresh
                (fun i =>
                  let g := get_value d2f t root (some (p ++ [.aidx i]))
                    (native_default t) ""
                  (g.1, g.2.1))
                (List.range xs.length) []
              (r.1, r.2, error)
          | _ => (false, value, format_error root (some p) "array expected")
      | none => (false, value, format_error root none "array expected")
  | .arr t n => fun root tgt value error =>
      match tgt with
      | some p =>
          match resolve root p with
          | some (.array xs) =>
              if xs.length = n then
                let r := get_elems_inplace
                  (fun i cur =>
                    let g := get_value d2f t root
                      (get_element_at_idx root (some p) i) cur ""
                    (g.1, g.2.1))
                  (native_default t) (List.range xs.length) value.1
                (r.1, ⟨r.2, by rw [get_elems_inplace_length]; exact value.2⟩,
                 error)
              else
                (false, value,
                 format_error root (some p) "array size mismatched")
          | _ => (false, value, format_error root (some p) "array expected")
      | none => (false, value, format_error root none "array expected")

/-- The `set_value(json_view, T, string&)` overload family, indexed by the
native type `T`.  The 32-bit and `float` overloads delegate to the 64-bit
ones through exact widening casts; the vector overload force-resizes the
target and sets each element through the error-less two-argument overload,
while the fixed-size array overload threads the caller's error string
through the element conversions. -/
def set_value :
    (t : native_type) → json_value → jview → native t → String →
      Bool × json_value × String
  | .i64 => set_value_i64
  | .i32 => set_value_i64
  | .u64 => set_value_u64
  | .u32 => set_value_u64
  | .f64 => set_value_f64
  | .f32 => set_value_f64
  | .boolean => set_value_boolean
  | .str => set_value_str
  | .vec t => fun root tgt value error =>
      let r := set_array_sized root tgt value.length
      if r.1 then
        let l := set_elems_local
          (fun rt i v =>
            let s := set_value t rt (get_element_at_idx rt tgt i) v ""
            (s.1, s.2.1))
          r.2 0 value
        (l.1, l.2, error)
      else (false, r.2, format_error r.2 tgt "array expected")
  | .arr t n => fun root tgt value error =>
      let r := set_array_sized root tgt n
      if r.1 then
        set_elems_err
          (fun rt i v err => set_value t rt (get_element_at_idx rt tgt i) v err)
          r.2 0 error value.1
      else (false, r.2, format_error r.2 tgt "array expected")

/-- `get_value_at(json_cview, string_view, T&, string&)`: locate the key,
then convert; a path-qualified "missing key" error when absent. -/
def get_value_at_key (d2f : ℚ → ℚ) (t : native_type) (root : json_value)
    (tgt : jview) (key : String) (value : native t) (error : String) :
    Bool × native t × String :=
  let element := get_element_at_key root tgt key
  if is_valid element then get_value d2f t root element value error
  else (false, value, format_error root tgt ("missing key " ++ key))

/-- `get_value_at(json_cview, size_t, T&, string&)`: locate the index, then
convert; a path-qualified "index out of range" error when absent. -/
def get_value_at_idx (d2f : ℚ → ℚ) (t : native_type) (root : json_value)
    (tgt : jview) (idx : Nat) (value : native t) (error : String) :
    Bool × native t × String :=
  let element := get_element_at_idx root tgt idx
  if is_valid element then get_value d2f t root element value error
  else
    (false, value,
     format_error root tgt ("index out of range " ++ toString idx))

/-- The tree node that `set_value` stores for a native value: the exact
image of the value under the kind mapping of the conversion protocol
(derived characterization, used to state the round-trip property). -/
def encode : (t : native_type) → native t → json_value
  | .i64, v => .integer v
  | .i32, v => .integer v
  | .u64, v => .unsigned_ v
  | .u32, v => .unsigned_ v
  | .f64, q => .real q
  | .f32, q => .real q
  | .boolean, b => .boolean b
  | .str, s => .string_ s
  | .vec t, vs => .array (vs.map (encode t))
  | .arr t _, l => .array (l.1.map (encode t))

/-- The values of the Lean carrier that are actual native machine values:
32/64-bit machine ranges for the integer types, and fixpoints of the
float rounding `d2f` for `float` (every IEEE float is represented exactly
by the double it widens to).  Recurses through sequences. -/
def representable (d2f : ℚ → ℚ) : (t : native_type) → native t → Prop
  | .i64, v => -(2 ^ 63) ≤ v ∧ v < 2 ^ 63
  | .i32, v => -(2 ^ 31) ≤ v ∧ v < 2 ^ 31
  | .u64, v => v < 2 ^ 64
  | .u32, v => v < 2 ^ 32
  | .f64, _ => True
  | .f32, q => d2f q = q
  | .boolean, _ => True
  | .str, _ => True
  | .vec t, vs => ∀ v ∈ vs, representable d2f t v
  | .arr t _, l => ∀ v ∈ l.1, representable d2f t v

theorem list_get_set_self {α : Type _} (xs : List α) (i : Nat) (x y : α)
    (h : xs[i]? = some x) : (xs.set i y)[i]? = some y := by
  induction xs generalizing i with
  | nil => simp at h
  | cons a rest ih =>
      cases i with
      | zero => simp
      | succ j =>
          simp only [List.getElem?_cons_succ] at h
          simpa using ih j h

theorem list_set_of_get {α : Type _} (xs : List α) (i : Nat) (x : α)
    (h : xs[i]? = some x) : xs.set i x = xs := by
  induction xs generalizing i with
  | nil => rfl
  | cons a rest ih =>
      cases i with
      | zero => simp at h; simp [List.set, h]
      | succ j =>
          simp only [List.getElem?_cons_succ] at h
          simp only [List.set]
          rw [ih j h]

theorem list_set_append_len {α : Type _} (pre suf : List α) (a b : α) :
    (pre ++ a :: suf).set pre.length b = pre ++ b :: suf := by
  induction pre with
  | nil => rfl
  | cons x rest ih => simpa [List.set] using ih

theorem list_get_append_len {α : Type _} (pre suf : List α) (a : α) :
    (pre ++ a :: suf)[pre.length]? = some a := by
  induction pre with
  | nil => simp
  | cons x rest ih => simpa using ih

theorem resolve_append (r : json_value) (p q : jpath) :
    resolve r (p ++ q) = (resolve r p).bind (fun v => resolve v q) := by
  induction p generalizing r with
  | nil => rfl
  | cons s rest ih =>
      simp only [List.cons_append, resolve]
      cases child r s with
      | none => rfl
      | some c => exact ih c

theorem updateAt_array_cons (xs : List json_value) (i : Nat) (rest : jpath)
    (n x : json_value) (hx : xs[i]? = some x) :
    updateAt (.array xs) (.aidx i :: rest) n =
      .array (xs.set i (updateAt x rest n)) := by
  simp [updateAt, hx]

theorem updateAt_object_cons (kvs : List (String × json_value)) (i : Nat)
    (rest : jpath) (n : json_value) (kv : String × json_value)
    (hkv : kvs[i]? = some kv) :
    updateAt (.object kvs) (.oidx i :: rest) n =
      .object (kvs.set i (kv.1, updateAt kv.2 rest n)) := by
  simp [updateAt, hkv]

theorem resolve_updateAt_self (r : json_value) (p : jpath) (n : json_value)
    (h : (resolve r p).isSome) : resolve (updateAt r p n) p = some n := by
  induction p generalizing r with
  | nil => rfl
  | cons s rest ih =>
      cases s with
      | aidx i =>
          cases r with
          | array xs =>
              simp only [resolve, child] at h ⊢
              cases hx : xs[i]? with
              | none => rw [hx] at h; simp at h
              | some x =>
                  rw [hx] at h
                  simp only [updateAt, hx, resolve, child]
                  rw [list_get_set_self xs i x _ hx]
                  exact ih x h
          | null => simp [resolve, child] at h
          | integer v => simp [resolve, child] at h
          | unsigned_ v => simp [resolve, child] at h
          | real v => simp [resolve, child] at h
          | boolean v => simp [resolve, child] at h
          | string_ v => simp [resolve, child] at h
          | object kvs => simp [resolve, child] at h
          | binary bs => simp [resolve, child] at h
      | oidx i =>
          cases r with
          | object kvs =>
              simp only [resolve, child] at h ⊢
              cases hx : kvs[i]? with
              | none => rw [hx] at h; simp at h
              | some kv =>
                  rw [hx] at h
                  simp only [updateAt, hx, resolve, child]
                  rw [list_get_set_self kvs i kv _ hx]
                  simp only [Option.map_some']
                  exact ih kv.2 (by simpa using h)
          | null => simp [resolve, child] at h
          | integer v => simp [resolve, child] at h
          | unsigned_ v => simp [resolve, child] at h
          | real v => simp [resolve, child] at h
          | boolean v => simp [resolve, child] at h
          | string_ v => simp [resolve, child] at h
          | array xs => simp [resolve, child] at h
          | binary bs => simp [resolve, child] at h

theorem updateAt_updateAt (r : json_value) (p : jpath) (a b : json_value) :
    updateAt (updateAt r p a) p b = updateAt r p b := by
  induction p generalizing r with
  | nil => rfl
  | cons s rest ih =>
      cases s with
      | aidx i =>
          cases r with
          | array xs =>
              cases hx : xs[i]? with
              | none => simp [updateAt, hx]
              | some x =>
                  rw [updateAt_array_cons xs i rest a x hx,
                      updateAt_array_cons xs i rest b x hx,
                      updateAt_array_cons _ i rest b _
                        (list_get_set_self xs i x _ hx),
                      List.set_set, ih x]
          | null => rfl
          | integer v => rfl
          | unsigned_ v => rfl
          | real v => rfl
          | boolean v => rfl
          | string_ v => rfl
          | object kvs => rfl
          | binary bs => rfl
      | oidx i =>
          cases r with
          | object kvs =>
              cases hx : kvs[i]? with
              | none => simp [updateAt, hx]
              | some kv =>
                  rw [updateAt_object_cons kvs i rest a kv hx,
                      updateAt_object_cons kvs i rest b kv hx,
                      updateAt_object_cons _ i rest b _
                        (list_get_set_self kvs i kv _ hx),
                      List.set_set]
                  simp [ih kv.2]
          | null => rfl
          | integer v => rfl
          | unsigned_ v => rfl
          | real v => rfl
          | boolean v => rfl
          | string_ v => rfl
          | array xs => rfl
          | binary bs => rfl

theorem updateAt_child_array (r : json_value) (p : jpath) (i : Nat)
    (xs : List json_value) (n : json_value)
    (h : resolve r p = some (.array xs)) :
    updateAt r (p ++ [.aidx i]) n = updateAt r p (.array (xs.set i n)) := by
  induction p generalizing r with
  | nil =>
      simp only [resolve] at h
      cases h
      simp only [List.nil_append, updateAt]
      cases hx : xs[i]? with
      | none =>
          rw [List.set_eq_of_length_le (List.getElem?_eq_none_iff.mp hx)]
      | some x => rfl
  | cons s rest ih =>
      cases s with
      | aidx j =>
          cases r with
          | array ys =>
              simp only [resolve, child] at h
              cases hy : ys[j]? with
              | none => rw [hy] at h; simp at h
              | some y =>
                  rw [hy] at h
                  rw [List.cons_append,
                      updateAt_array_cons ys j _ n y hy,
                      updateAt_array_cons ys j rest (.array (xs.set i n)) y hy,
                      ih y h]
          | null => simp [resolve, child] at h
          | integer v => simp [resolve, child] at h
          | unsigned_ v => simp [resolve, child] at h
          | real v => simp [resolve, child] at h
          | boolean v => simp [resolve, child] at h
          | string_ v => simp [resolve, child] at h
          | object kvs => simp [resolve, child] at h
          | binary bs => simp [resolve, child] at h
      | oidx j =>
          cases r with
          | object kvs =>
              simp only [resolve, child] at h
              cases hy : kvs[j]? with
              | none => rw [hy] at h; simp at h
              | some kv =>
                  rw [hy] at h
                  simp only [Option.map_some'] at h
                  rw [List.cons_append,
                      updateAt_object_cons kvs j _ n kv hy,
                      updateAt_object_cons kvs j rest (.array (xs.set i n)) kv hy,
                      ih kv.2 h]
          | null => simp [resolve, child] at h
          | integer v => simp [resolve, child] at h
          | unsigned_ v => simp [resolve, child] at h
          | real v => simp [resolve, child] at h
          | boolean v => simp [resolve, child] at h
          | string_ v => simp [resolve, child] at h
          | array xs2 => simp [resolve, child] at h
          | binary bs => simp [resolve, child] at h

theorem get_element_at_idx_of_array (root : json_value) (p : jpath)
    (xs : List json_value) (i : Nat) (h : resolve root p = some (.array xs))
    (hi : i < xs.length) :
    get_element_at_idx root (some p) i = some (p ++ [.aidx i]) := by
  simp [get_element_at_idx, h, hi]

theorem set_elems_local_encode (t : native_type)
    (IH : ∀ (root : json_value) (p : jpath), (resolve root p).isSome →
      ∀ (v : native t) (err : String),
        set_value t root (some p) v err =
          (true, updateAt root p (encode t v), err))
    (root : json_value) (p : jpath) (hp : (resolve root p).isSome)
    (vs : List (native t)) :
    ∀ done : List json_value,
      set_elems_local
        (fun rt i v =>
          let s := set_value t rt (get_element_at_idx rt (some p) i) v ""
          (s.1, s.2.1))
        (updateAt root p (.array (done ++ List.replicate vs.length .null)))
        done.length vs
      = (true, updateAt root p (.array (done ++ vs.map (encode t)))) := by
  induction vs with
  | nil => intro done; simp [set_elems_local]
  | cons v rest ih =>
      intro done
      have hrepl : List.replicate (v :: rest).length json_value.null =
          .null :: List.replicate rest.length .null := by
        simp [List.replicate_succ]
      have hres : resolve
          (updateAt root p
            (.array (done ++ List.replicate (v :: rest).length .null))) p
          = some (.array (done ++ List.replicate (v :: rest).length .null)) :=
        resolve_updateAt_self _ _ _ hp
      have hlt : done.length <
          (done ++ List.replicate (v :: rest).length json_value.null).length := by
        simp
      have hel := get_element_at_idx_of_array _ p _ done.length hres hlt
      have hchild : (resolve
          (updateAt root p
            (.array (done ++ List.replicate (v :: rest).length .null)))
          (p ++ [.aidx done.length])).isSome := by
        rw [resolve_append, hres]
        simp only [Option.some_bind, resolve, child]
        rw [hrepl, list_get_append_len]
        simp [resolve]
      have happ : set_value t
          (updateAt root p
            (.array (done ++ List.replicate (v :: rest).length .null)))
          (get_element_at_idx
            (updateAt root p
              (.array (done ++ List.replicate (v :: rest).length .null)))
            (some p) done.length) v ""
          = (true,
             updateAt root p
              (.array ((done ++ [encode t v]) ++
                List.replicate rest.length .null)), "") := by
        rw [hel, IH _ _ hchild v ""]
        rw [updateAt_child_array _ p done.length _ _ hres, updateAt_updateAt]
        rw [hrepl, list_set_append_len]
        simp
      have hstep : set_elems_local
          (fun rt i v =>
            let s := set_value t rt (get_element_at_idx rt (some p) i) v ""
            (s.1, s.2.1))
          (updateAt root p
            (.array (done ++ List.replicate (v :: rest).length .null)))
          done.length (v :: rest)
          = set_elems_local
            (fun rt i v =>
              let s := set_value t rt (get_element_at_idx rt (some p) i) v ""
              (s.1, s.2.1))
            (updateAt root p
              (.array ((done ++ [encode t v]) ++
                List.replicate rest.length .null)))
            (done.length + 1) rest := by
        simp only [set_elems_local, happ]
        simp
      rw [hstep]
      have := ih (done ++ [encode t v])
      simp only [List.length_append, List.length_cons, List.length_nil] at this
      simpa using this

theorem set_elems_err_encode (t : native_type)
    (IH : ∀ (root : json_value) (p : jpath), (resolve root p).isSome →
      ∀ (v : native t) (err : String),
        set_value t root (some p) v err =
          (true, updateAt root p (encode t v), err))
    (root : json_value) (p : jpath) (hp : (resolve root p).isSome)
    (vs : List (native t)) :
    ∀ (done : List json_value) (err : String),
      set_elems_err
        (fun rt i v e => set_value t rt (get_element_at_idx rt (some p) i) v e)
        (updateAt root p (.array (done ++ List.replicate vs.length .null)))
        done.length err vs
      = (true, updateAt root p (.array (done ++ vs.map (encode t))), err) := by
  induction vs with
  | nil => intro done err; simp [set_elems_err]
  | cons v rest ih =>
      intro done err
      have hrepl : List.replicate (v :: rest).length json_value.null =
          .null :: List.replicate rest.length .null := by
        simp [List.replicate_succ]
      have hres : resolve
          (updateAt root p
            (.array (done ++ List.replicate (v :: rest).length .null))) p
          = some (.array (done ++ List.replicate (v :: rest).length .null)) :=
        resolve_updateAt_self _ _ _ hp
      have hlt : done.length <
          (done ++ List.replicate (v :: rest).length json_value.null).length := by
        simp
      have hel := get_element_at_idx_of_array _ p _ done.length hres hlt
      have hchild : (resolve
          (updateAt root p
            (.array (done ++ List.replicate (v :: rest).length .null)))
          (p ++ [.aidx done.length])).isSome := by
        rw [resolve_append, hres]
        simp only [Option.some_bind, resolve, child]
        rw [hrepl, list_get_append_len]
        simp [resolve]
      have happ : set_value t
          (updateAt root p
            (.array (done ++ List.replicate (v :: rest).length .null)))
          (get_element_at_idx
            (updateAt root p
              (.array (done ++ List.replicate (v :: rest).length .null)))
            (some p) done.length) v err
          = (true,
             updateAt root p
              (.array ((done ++ [encode t v]) ++
                List.replicate rest.length .null)), err) := by
        rw [hel, IH _ _ hchild v err]
        rw [updateAt_child_array _ p done.length _ _ hres, updateAt_updateAt]
        rw [hrepl, list_set_append_len]
        simp
      have hstep : set_elems_err
          (fun rt i v e => set_value t rt (get_element_at_idx rt (some p) i) v e)
          (updateAt root p
            (.array (done ++ List.replicate (v :: rest).length .null)))
          done.length err (v :: rest)
          = set_elems_err
            (fun rt i v e => set_value t rt (get_element_at_idx rt (some p) i) v e)
            (updateAt root p
              (.array ((done ++ [encode t v]) ++
                List.replicate rest.length .null)))
            (done.length + 1) err rest := by
        simp only [set_elems_err, happ]
        simp
      rw [hstep]
      have := ih (done ++ [encode t v]) err
      simp only [List.length_append, List.length_cons, List.length_nil] at this
      simpa using this

theorem set_value_encode : ∀ (t : native_type) (root : json_value) (p : jpath),
    (resolve root p).isSome → ∀ (v : native t) (err : String),
      set_value t root (some p) v err =
        (true, updateAt root p (encode t v), err) := by
  intro t
  induction t with
  | i64 =>
      intro root p hp v err
      simp [set_value, set_value_i64, set_integer, encode]
  | i32 =>
      intro root p hp v err
      simp [set_value, set_value_i64, set_integer, encode]
  | u64 =>
      intro root p hp v err
      simp [set_value, set_value_u64, set_unsigned, encode]
  | u32 =>
      intro root p hp v err
      simp [set_value, set_value_u64, set_unsigned, encode]
  | f64 =>
      intro root p hp v err
      simp [set_value, set_value_f64, set_real, encode]
  | f32 =>
      intro root p hp v err
      simp [set_value, set_value_f64, set_real, encode]
  | boolean =>
      intro root p hp v err
      simp [set_value, set_value_boolean, set_boolean, encode]
  | str =>
      intro root p hp v err
      simp [set_value, set_value_str, set_string, encode]
  | vec t ih =>
      intro root p hp vs err
      have h0 : resolve (updateAt root p (json_value.array [])) p =
          some (.array []) := resolve_updateAt_self root p _ hp
      have harr : set_array_sized root (some p) vs.length =
          (true, updateAt root p (.array (List.replicate vs.length .null))) := by
        simp [set_array_sized, set_type, json_value.fresh_payload,
              resize_array, h0, updateAt_updateAt]
      simp only [set_value, harr]
      have := set_elems_local_encode t ih root p hp vs []
      simp only [List.nil_append, List.length_nil] at this
      simp [encode, this]
  | arr t n ih =>
      intro root p hp l err
      have h0 : resolve (updateAt root p (json_value.array [])) p =
          some (.array []) := resolve_updateAt_self root p _ hp
      have harr : set_array_sized root (some p) n =
          (true, updateAt root p (.array (List.replicate n .null))) := by
        simp [set_array_sized, set_type, json_value.fresh_payload,
              resize_array, h0, updateAt_updateAt]
      simp only [set_value, harr]
      have := set_elems_err_encode t ih root p hp l.1 [] err
      rw [l.2] at this
      simp only [List.nil_append, List.length_nil] at this
      simp [encode, this]

theorem wrap_i32_cancel (v : Int) (h1 : -(2 ^ 31) ≤ v) (h2 : v < 2 ^ 31) :
    wrap_i32 v = v := by
  unfold wrap_i32
  omega

theorem wrap_u32_cancel (v : Nat) (h : v < 2 ^ 32) : wrap_u32 v = v :=
  Nat.mod_eq_of_lt h

theorem list_take_set_succ {α : Type _} (l : List α) (i : Nat) (a : α)
    (h : i < l.length) : (l.set i a).take (i + 1) = l.take i ++ [a] := by
  induction l generalizing i with
  | nil => simp at h
  | cons x rest ih =>
      cases i with
      | zero => simp
      | succ j =>
          simp only [List.set, List.take, List.length_cons] at h ⊢
          rw [ih j (Nat.lt_of_succ_lt_succ h)]
          simp

theorem map_elem_at_len {α : Type _} (f : α → json_value) (pre : List α)
    (v : α) (rest : List α) :
    ((pre ++ v :: rest).map f)[pre.length]? = some (f v) := by
  rw [List.map_append, List.map_cons,
      show pre.length = (pre.map f).length from (List.length_map _ _).symm]
  exact list_get_append_len _ _ _

theorem resolve_array_elem (root : json_value) (p : jpath)
    (xs : List json_value) (i : Nat) (x : json_value)
    (hres : resolve root p = some (.array xs)) (hx : xs[i]? = some x) :
    resolve root (p ++ [.aidx i]) = some x := by
  rw [resolve_append, hres]
  simp [resolve, child, hx]

theorem get_elems_fresh_encode (d2f : ℚ → ℚ) (t : native_type)
    (IH : ∀ (root : json_value) (p : jpath) (v : native t),
      representable d2f t v → resolve root p = some (encode t v) →
      ∀ (v0 : native t) (err : String),
        get_value d2f t root (some p) v0 err = (true, v, err))
    (root : json_value) (p : jpath) (vs : List (native t))
    (hrep : ∀ v ∈ vs, representable d2f t v)
    (hres : resolve root p = some (.array (vs.map (encode t)))) :
    ∀ (pre suf : List (native t)), vs = pre ++ suf →
      get_elems_fresh
        (fun i =>
          let g := get_value d2f t root (some (p ++ [.aidx i]))
            (native_default t) ""
          (g.1, g.2.1))
        (List.range' pre.length suf.length) pre = (true, vs) := by
  intro pre suf
  induction suf generalizing pre with
  | nil =>
      intro hsplit
      simp [get_elems_fresh, hsplit]
  | cons v rest ih =>
      intro hsplit
      have hmem : v ∈ vs := by rw [hsplit]; simp
      have helem : resolve root (p ++ [.aidx pre.length]) =
          some (encode t v) :=
        resolve_array_elem root p _ pre.length _ hres
          (by rw [hsplit]; exact map_elem_at_len (encode t) pre v rest)
      have happ : get_value d2f t root (some (p ++ [.aidx pre.length]))
          (native_default t) "" = (true, v, "") :=
        IH root _ v (hrep v hmem) helem _ _
      have hrange : List.range' pre.length (v :: rest).length =
          pre.length :: List.range' (pre.length + 1) rest.length := by
        simp [List.range'_succ]
      rw [List.length_cons] at hrange ⊢
      rw [hrange]
      have hstep : get_elems_fresh
          (fun i =>
            let g := get_value d2f t root (some (p ++ [.aidx i]))
              (native_default t) ""
            (g.1, g.2.1))
          (pre.length :: List.range' (pre.length + 1) rest.length) pre
          = get_elems_fresh
            (fun i =>
              let g := get_value d2f t root (some (p ++ [.aidx i]))
                (native_default t) ""
              (g.1, g.2.1))
            (List.range' (pre.length + 1) rest.length) (pre ++ [v]) := by
        simp [get_elems_fresh, happ]
      rw [hstep]
      have := ih (pre ++ [v]) (by simpa using hsplit)
      simpa using this

theorem get_elems_inplace_encode (d2f : ℚ → ℚ) (t : native_type)
    (IH : ∀ (root : json_value) (p : jpath) (v : native t),
      representable d2f t v → resolve root p = some (encode t v) →
      ∀ (v0 : native t) (err : String),
        get_value d2f t root (some p) v0 err = (true, v, err))
    (root : json_value) (p : jpath) (vs : List (native t))
    (hrep : ∀ v ∈ vs, representable d2f t v)
    (hres : resolve root p = some (.array (vs.map (encode t)))) :
    ∀ (pre suf cur : List (native t)), vs = pre ++ suf →
      cur.length = vs.length →
      get_elems_inplace
        (fun i c =>
          let g := get_value d2f t root (get_element_at_idx root (some p) i)
            c ""
          (g.1, g.2.1))
        (native_default t)
        (List.range' pre.length suf.length) cur
      = (true, cur.take pre.length ++ suf) := by
  intro pre suf
  induction suf generalizing pre with
  | nil =>
      intro cur hsplit hlen
      have : pre.length = cur.length := by rw [hlen, hsplit]; simp
      simp [get_elems_inplace, this, List.take_length]
  | cons v rest ih =>
      intro cur hsplit hlen
      have hmem : v ∈ vs := by rw [hsplit]; simp
      have hlt : pre.length < (vs.map (encode t)).length := by
        rw [hsplit]; simp
      have hel := get_element_at_idx_of_array root p _ pre.length hres hlt
      have helem : resolve root (p ++ [.aidx pre.length]) =
          some (encode t v) :=
        resolve_array_elem root p _ pre.length _ hres
          (by rw [hsplit]; exact map_elem_at_len (encode t) pre v rest)
      have hrange : List.range' pre.length (v :: rest).length =
          pre.length :: List.range' (pre.length + 1) rest.length := by
        simp [List.range'_succ]
      rw [List.length_cons] at hrange ⊢
      rw [hrange]
      have hstep : get_elems_inplace
          (fun i c =>
            let g := get_value d2f t root (get_element_at_idx root (some p) i)
              c ""
            (g.1, g.2.1))
          (native_default t)
          (pre.length :: List.range' (pre.length + 1) rest.length) cur
          = get_elems_inplace
            (fun i c =>
              let g := get_value d2f t root
                (get_element_at_idx root (some p) i) c ""
              (g.1, g.2.1))
            (native_default t)
            (List.range' (pre.length + 1) rest.length)
            (cur.set pre.length v) := by
        simp [get_elems_inplace, hel, IH root _ v (hrep v hmem) helem _ ""]
      rw [hstep]
      have hlen' : (cur.set pre.length v).length = vs.length := by
        simpa using hlen
      have := ih (pre ++ [v]) (cur.set pre.length v) (by simpa using hsplit)
        hlen'
      simp only [List.length_append, List.length_cons, List.length_nil] at this
      rw [this]
      have hcl : pre.length < cur.length := by
        rw [hlen, hsplit]; simp
      rw [list_take_set_succ cur pre.length v hcl]
      simp

theorem get_value_encode (d2f : ℚ → ℚ) : ∀ (t : native_type)
    (root : json_value) (p : jpath) (v : native t),
    representable d2f t v → resolve root p = some (encode t v) →
    ∀ (v0 : native t) (err : String),
      get_value d2f t root (some p) v0 err = (true, v, err) := by
  intro t
  induction t with
  | i64 =>
      intro root p v hrep hres v0 err
      simp [get_value, get_value_i64, get_integral, view_node, hres, encode]
  | i32 =>
      intro root p v hrep hres v0 err
      simp only [encode] at hres
      simp [get_value, get_value_i32, get_value_i64, get_integral, view_node,
            hres, wrap_i32_cancel v hrep.1 hrep.2]
  | u64 =>
      intro root p v hrep hres v0 err
      simp [get_value, get_value_u64, get_integral_u, view_node, hres, encode]
  | u32 =>
      intro root p v hrep hres v0 err
      simp only [encode] at hres
      simp [get_value, get_value_u32, get_value_u64, get_integral_u, view_node,
            hres, wrap_u32_cancel v hrep]
  | f64 =>
      intro root p v hrep hres v0 err
      simp [get_value, get_value_f64, get_number, view_node, hres, encode]
  | f32 =>
      intro root p v hrep hres v0 err
      simp only [encode] at hres
      simp only [representable] at hrep
      simp [get_value, get_value_f32, get_value_f64, get_number, view_node,
            hres, hrep]
  | boolean =>
      intro root p v hrep hres v0 err
      simp [get_value, get_value_boolean, get_boolean, view_node, hres, encode]
  | str =>
      intro root p v hrep hres v0 err
      simp [get_value, get_value_str, get_string, view_node, hres, encode]
  | vec t ih =>
      intro root p vs hrep hres v0 err
      simp only [encode] at hres
      have := get_elems_fresh_encode d2f t ih root p vs hrep hres [] vs rfl
      simp only [List.length_nil] at this
      simp only [get_value, hres]
      rw [show (vs.map (encode t)).length = vs.length by simp,
          List.range_eq_range']
      simp [this]
  | arr t n ih =>
      intro root p l hrep hres v0 err
      simp only [encode] at hres
      have hxs : (l.1.map (encode t)).length = n := by
        rw [List.length_map, l.2]
      have hv0 : v0.1.length = l.1.length := by rw [v0.2, l.2]
      have := get_elems_inplace_encode d2f t ih root p l.1 hrep hres [] l.1
        v0.1 rfl hv0
      simp only [List.length_nil, List.take_zero, List.nil_append] at this
      rw [show (l.1 : List (native t)).length = n from l.2] at this
      have hthis : get_elems_inplace
          (fun i c =>
            let g := get_value d2f t root (get_element_at_idx root (some p) i)
              c ""
            (g.1, g.2.1))
          (native_default t) (List.range n) v0.1 = (true, l.1) := by
        rw [List.range_eq_range']
        exact this
      simp only [get_value, hres, hxs]
      rw [if_pos trivial]
      have key : ∀ (A : Bool × List (native t)), A = (true, l.1) →
          ∀ (pf : A.2.length = n),
          ((A.1, (⟨A.2, pf⟩ : {xs : List (native t) // xs.length = n}), err) :
            Bool × {xs : List (native t) // xs.length = n} × String)
            = (true, l, err) := by
        intro A hA pf
        subst hA
        simp
      exact key _ hthis _

theorem find_pairs_first (pre rest : List (String × json_value))
    (key : String) (v : json_value) (h : ∀ kv ∈ pre, kv.1 ≠ key) :
    json_value.find_pairs (pre ++ (key, v) :: rest) key = some v := by
  induction pre with
  | nil => simp [json_value.find_pairs]
  | cons kv pres ih =>
      have hne : kv.1 ≠ key := h kv (by simp)
      simp only [List.cons_append, json_value.find_pairs, hne, if_neg]
      exact ih (fun kv hm => h kv (by simp [hm]))

theorem find_pair_idx_none (kvs : List (String × json_value)) (key : String)
    (h : ∀ kv ∈ kvs, kv.1 ≠ key) : find_pair_idx kvs key = none := by
  induction kvs with
  | nil => rfl
  | cons kv rest ih =>
      have hne : kv.1 ≠ key := h kv (by simp)
      simp only [find_pair_idx, hne, if_neg]
      rw [ih (fun kv hm => h kv (by simp [hm]))]
      rfl

theorem find_pair_idx_append_self (kvs : List (String × json_value))
    (key : String) (x : json_value) (h : find_pair_idx kvs key = none) :
    find_pair_idx (kvs ++ [(key, x)]) key = some kvs.length := by
  induction kvs with
  | nil => simp [find_pair_idx]
  | cons kv rest ih =>
      simp only [find_pair_idx, List.cons_append] at h ⊢
      by_cases hk : kv.1 = key
      · simp [hk] at h
      · simp only [if_neg hk] at h ⊢
        rw [Option.map_eq_none'] at h
        simp only [List.append_eq]
        rw [ih h]
        simp

/-- C3 counterexample: `resize` on a Value of the sized kind `object` is a
hard failure (`json_error{"bad json type"}`), contrary to the claim that
all four of size/empty/resize/reserve succeed on all four sized kinds. -/
theorem resize_object_is_hard_failure :
    json_value.resize (.object [("k", .null)]) 2 = .error "bad json type" :=
  rfl

/-- C3 (amended): on a Value, `size()`, `empty()` and `reserve()` succeed
exactly on the four sized kinds (string, array, object, binary) and are
hard failures on every other kind; `resize()` succeeds exactly on string,
array and binary — on an object it is a hard failure, just as on the
non-sized kinds. -/
theorem sized_ops_characterization (js : json_value) (n : Nat) :
    ((js.size).isOk = true ↔ js.type ∈
      [json_type.string_, json_type.array, json_type.object, json_type.binary]) ∧
    ((js.empty).isOk = true ↔ js.type ∈
      [json_type.string_, json_type.array, json_type.object, json_type.binary]) ∧
    ((js.reserve n).isOk = true ↔ js.type ∈
      [json_type.string_, json_type.array, json_type.object, json_type.binary]) ∧
    ((js.resize n).isOk = true ↔ js.type ∈
      [json_type.string_, json_type.array, json_type.binary]) := by
  cases js <;>
    simp [json_value.size, json_value.empty, json_value.reserve,
      json_value.resize, json_value.type, Except.isOk, Except.toBool, bind,
      Except.bind, pure, Except.pure]

/-- C4 counterexample: on an invalid view (null target), `get_type` does
return the null kind, but `is_null` returns false (it conjoins
`is_valid`), contrary to the claim that it returns true. -/
theorem is_null_false_on_invalid_view :
    get_type .null none = json_type.null ∧ is_null .null none = false :=
  ⟨rfl, rfl⟩

/-- C4 (amended): on every invalid view, `get_type` returns the null kind,
but every view-level kind predicate returns false — including `is_null`,
which additionally requires the view to be valid.  The predicates
therefore do not report the null kind on an invalid view. -/
theorem invalid_view_predicates (root : json_value) :
    get_type root none = json_type.null ∧
    is_null root none = false ∧
    is_integer root none = false ∧
    is_unsigned root none = false ∧
    is_real root none = false ∧
    is_integral root none = false ∧
    is_number root none = false ∧
    is_boolean root none = false ∧
    is_string root none = false ∧
    is_array root none = false ∧
    is_object root none = false ∧
    is_binary root none = false := by
  refine ⟨rfl, rfl, ?_, ?_, ?_, ?_, ?_, ?_, ?_, ?_, ?_, ?_⟩ <;> rfl

/-- C5: `set_type(k)` always succeeds, on a Value and on every valid view;
afterwards the discriminant is `k`, exactly the matching kind predicate
holds, and the installed payload is the zero/empty payload of kind `k`. -/
theorem set_type_discriminant :
    (∀ (js : json_value) (k : json_type),
      js.set_type k = json_value.fresh_payload k ∧
      (js.set_type k).type = k ∧
      ((js.set_type k).is_null = true ↔ k = json_type.null) ∧
      ((js.set_type k).is_integer = true ↔ k = json_type.integer) ∧
      ((js.set_type k).is_unsigned = true ↔ k = json_type.unsigned_) ∧
      ((js.set_type k).is_real = true ↔ k = json_type.real) ∧
      ((js.set_type k).is_bool = true ↔ k = json_type.boolean) ∧
      ((js.set_type k).is_string = true ↔ k = json_type.string_) ∧
      ((js.set_type k).is_array = true ↔ k = json_type.array) ∧
      ((js.set_type k).is_object = true ↔ k = json_type.object) ∧
      ((js.set_type k).is_binary = true ↔ k = json_type.binary)) ∧
    (∀ (root : json_value) (p : jpath) (k : json_type),
      (resolve root p).isSome →
      (set_type root (some p) k).1 = true ∧
      resolve (set_type root (some p) k).2 p =
        some (json_value.fresh_payload k) ∧
      get_type (set_type root (some p) k).2 (some p) = k ∧
      (is_null (set_type root (some p) k).2 (some p) = true ↔
        k = json_type.null) ∧
      (is_integer (set_type root (some p) k).2 (some p) = true ↔
        k = json_type.integer) ∧
      (is_unsigned (set_type root (some p) k).2 (some p) = true ↔
        k = json_type.unsigned_) ∧
      (is_real (set_type root (some p) k).2 (some p) = true ↔
        k = json_type.real) ∧
      (is_boolean (set_type root (some p) k).2 (some p) = true ↔
        k = json_type.boolean) ∧
      (is_string (set_type root (some p) k).2 (some p) = true ↔
        k = json_type.string_) ∧
      (is_array (set_type root (some p) k).2 (some p) = true ↔
        k = json_type.array) ∧
      (is_object (set_type root (some p) k).2 (some p) = true ↔
        k = json_type.object) ∧
      (is_binary (set_type root (some p) k).2 (some p) = true ↔
        k = json_type.binary)) := by
  constructor
  · intro js k
    cases k <;>
      simp [json_value.set_type, json_value.fresh_payload, json_value.type,
        json_value.is_null, json_value.is_integer, json_value.is_unsigned,
        json_value.is_real, json_value.is_bool, json_value.is_string,
        json_value.is_array, json_value.is_object, json_value.is_binary]
  · intro root p k hp
    have hres := resolve_updateAt_self root p (json_value.fresh_payload k) hp
    have hview : view_node (set_type root (some p) k).2 (some p) =
        some (json_value.fresh_payload k) := by
      simpa [set_type, view_node] using hres
    refine ⟨rfl, by simpa [set_type] using hres, ?_⟩
    cases k <;>
      simp [get_type, hview, is_null, is_valid, is_integer, is_unsigned,
        is_real, is_boolean, is_string, is_array, is_object, is_binary,
        json_value.fresh_payload, json_value.type]

/-- C5 witness: concrete instances of both halves at kind `array`. -/
theorem set_type_discriminant_witness :
    (json_value.integer 7).set_type json_type.array = .array [] ∧
    (resolve (.object [("a", .null)]) [.oidx 0]).isSome = true ∧
    resolve
      (set_type (.object [("a", .null)]) (some [.oidx 0]) json_type.array).2
      [.oidx 0] = some (.array []) :=
  ⟨(set_type_discriminant.1 (.integer 7) .array).1, rfl,
   (set_type_discriminant.2 (.object [("a", .null)]) [.oidx 0] .array
      (by rfl)).2.1⟩

/-- C10: on every view whose target kind is none of array, object, string
or binary — including invalid views — the view-level `size` returns 1
(the C++ source returns the bool `true`, which converts to `size_t` 1) and
the view-level `empty` returns true. -/
theorem size_one_on_non_sized (root : json_value) (tgt : jview)
    (h1 : get_type root tgt ≠ json_type.array)
    (h2 : get_type root tgt ≠ json_type.object)
    (h3 : get_type root tgt ≠ json_type.string_)
    (h4 : get_type root tgt ≠ json_type.binary) :
    size root tgt = 1 ∧ empty root tgt = true := by
  cases hv : view_node root tgt with
  | none => simp [size, empty, hv]
  | some v =>
      cases v with
      | array xs => exact absurd (by simp [get_type, hv, json_value.type]) h1
      | object kvs => exact absurd (by simp [get_type, hv, json_value.type]) h2
      | string_ s => exact absurd (by simp [get_type, hv, json_value.type]) h3
      | binary bs => exact absurd (by simp [get_type, hv, json_value.type]) h4
      | null => simp [size, empty, hv]
      | integer v => simp [size, empty, hv]
      | unsigned_ v => simp [size, empty, hv]
      | real v => simp [size, empty, hv]
      | boolean v => simp [size, empty, hv]

/-- C10 witness: a scalar view and an invalid view. -/
theorem size_one_on_non_sized_witness :
    (size (.integer 7) (some []) = 1 ∧ empty (.integer 7) (some []) = true) ∧
    (size .null none = 1 ∧ empty .null none = true) :=
  ⟨size_one_on_non_sized (.integer 7) (some [])
      (by decide) (by decide) (by decide) (by decide),
   size_one_on_non_sized .null none
      (by decide) (by decide) (by decide) (by decide)⟩

/-- C1: evaluation of `compute_path` on the document
`{"a":[1,2,{"b":3}]}`.  The root view resolves to `/`, an invalid view and
an unreachable target resolve to `""` as claimed, but the view of the node
holding 3 resolves to `/a/0/b`, not `/a/2/b`: the local variable `idx` of
`_compute_path` is initialised to 0 and never incremented, so every array
segment is rendered as index 0. -/
theorem compute_path_doc_eval :
    compute_path
      (.object [("a", .array [.integer 1, .integer 2,
        .object [("b", .integer 3)]])])
      (some [.oidx 0, .aidx 2, .oidx 0]) = "/a/0/b" ∧
    compute_path
      (.object [("a", .array [.integer 1, .integer 2,
        .object [("b", .integer 3)]])])
      (some []) = "/" ∧
    compute_path
      (.object [("a", .array [.integer 1, .integer 2,
        .object [("b", .integer 3)]])])
      none = "" ∧
    compute_path
      (.object [("a", .array [.integer 1, .integer 2,
        .object [("b", .integer 3)]])])
      (some [.aidx 0]) = "" ∧
    (∀ root : json_value, compute_path root none = "") :=
  ⟨rfl, rfl, rfl, rfl, fun _ => rfl⟩

/-- C8: `get_number` succeeds exactly on the kinds integer, unsigned and
real, converting the stored value to the double representation (a node of
kind unsigned holding 5 yields 5.0); `get_integral` succeeds exactly on
integer and unsigned and fails on a node of kind real. -/
theorem numeric_widening (root : json_value) (tgt : jview) (q0 : ℚ)
    (i0 : Int) :
    ((get_number root tgt q0).1 = true ↔
      (get_type root tgt = json_type.integer ∨
       get_type root tgt = json_type.unsigned_ ∨
       get_type root tgt = json_type.real)) ∧
    ((get_integral root tgt i0).1 = true ↔
      (get_type root tgt = json_type.integer ∨
       get_type root tgt = json_type.unsigned_)) ∧
    (∀ u : Nat, view_node root tgt = some (.unsigned_ u) →
      get_number root tgt q0 = (true, (u : ℚ))) ∧
    (∀ i : Int, view_node root tgt = some (.integer i) →
      get_number root tgt q0 = (true, (i : ℚ))) ∧
    (∀ q : ℚ, view_node root tgt = some (.real q) →
      get_number root tgt q0 = (true, q) ∧
      get_integral root tgt i0 = (false, i0)) ∧
    get_number (.unsigned_ 5) (some []) q0 = (true, (5 : ℚ)) := by
  refine ⟨?_, ?_, ?_, ?_, ?_, ?_⟩
  · cases hv : view_node root tgt with
    | none => simp [get_number, get_type, hv]
    | some v => cases v <;> simp [get_number, get_type, hv, json_value.type]
  · cases hv : view_node root tgt with
    | none => simp [get_integral, get_type, hv]
    | some v => cases v <;> simp [get_integral, get_type, hv, json_value.type]
  · intro u hu
    simp [get_number, hu]
  · intro i hi
    simp [get_number, hi]
  · intro q hq
    exact ⟨by simp [get_number, hq], by simp [get_integral, hq]⟩
  · simp [get_number, view_node, resolve]

/-- C8 witness: the claimed concrete conversions. -/
theorem numeric_widening_witness :
    get_number (.unsigned_ 5) (some []) 0 = (true, (5 : ℚ)) ∧
    get_integral (.real 2) (some []) 7 = (false, 7) :=
  ⟨(numeric_widening (.unsigned_ 5) (some []) 0 7).2.2.1 5 rfl,
   ((numeric_widening (.real 2) (some []) 0 7).2.2.2.2.1 2 rfl).2⟩

theorem format_error_has_path (root : json_value) (tgt : jview)
    (msg : String) :
    ∃ a b : String,
      format_error root tgt msg = a ++ compute_path root tgt ++ b := by
  unfold format_error
  by_cases hp : compute_path root tgt = ""
  · exact ⟨msg ++ " in json", "", by simp [hp]⟩
  · exact ⟨msg ++ " at ", "", by simp [hp]⟩

/-- C9: `get_element` on an array view with an out-of-range index, and on
an object view with an absent key, both return an invalid view (null
target, no hard failure); `get_value_at` in either case returns false,
sets the error to the path-qualified "missing key" / "index out of range"
message (which contains the computed path), and leaves the output value
unmodified. -/
theorem missing_access :
    (∀ (root : json_value) (p : jpath) (xs : List json_value) (idx : Nat),
      resolve root p = some (.array xs) → xs.length ≤ idx →
      get_element_at_idx root (some p) idx = none) ∧
    (∀ (root : json_value) (p : jpath)
       (kvs : List (String × json_value)) (key : String),
      resolve root p = some (.object kvs) → (∀ kv ∈ kvs, kv.1 ≠ key) →
      get_element_at_key root (some p) key = none) ∧
    (∀ (d2f : ℚ → ℚ) (t : native_type) (root : json_value) (p : jpath)
       (kvs : List (String × json_value)) (key : String) (v0 : native t)
       (err : String),
      resolve root p = some (.object kvs) → (∀ kv ∈ kvs, kv.1 ≠ key) →
      get_value_at_key d2f t root (some p) key v0 err =
        (false, v0, format_error root (some p) ("missing key " ++ key)) ∧
      ∃ a b : String,
        format_error root (some p) ("missing key " ++ key) =
          a ++ compute_path root (some p) ++ b) ∧
    (∀ (d2f : ℚ → ℚ) (t : native_type) (root : json_value) (p : jpath)
       (xs : List json_value) (idx : Nat) (v0 : native t) (err : String),
      resolve root p = some (.array xs) → xs.length ≤ idx →
      get_value_at_idx d2f t root (some p) idx v0 err =
        (false, v0,
         format_error root (some p) ("index out of range " ++ toString idx)) ∧
      ∃ a b : String,
        format_error root (some p) ("index out of range " ++ toString idx) =
          a ++ compute_path root (some p) ++ b) := by
  have helidx : ∀ (root : json_value) (p : jpath) (xs : List json_value)
      (idx : Nat), resolve root p = some (.array xs) → xs.length ≤ idx →
      get_element_at_idx root (some p) idx = none := by
    intro root p xs idx h1 h2
    simp [get_element_at_idx, h1, show ¬idx < xs.length from by omega]
  have helkey : ∀ (root : json_value) (p : jpath)
      (kvs : List (String × json_value)) (key : String),
      resolve root p = some (.object kvs) → (∀ kv ∈ kvs, kv.1 ≠ key) →
      get_element_at_key root (some p) key = none := by
    intro root p kvs key h1 h2
    simp [get_element_at_key, h1, find_pair_idx_none kvs key h2]
  refine ⟨helidx, helkey, ?_, ?_⟩
  · intro d2f t root p kvs key v0 err h1 h2
    refine ⟨?_, format_error_has_path root (some p) _⟩
    simp [get_value_at_key, helkey root p kvs key h1 h2, is_valid]
  · intro d2f t root p xs idx v0 err h1 h2
    refine ⟨?_, format_error_has_path root (some p) _⟩
    simp [get_value_at_idx, helidx root p xs idx h1 h2, is_valid]

/-- C9 witness: a concrete missing key and a concrete out-of-range index. -/
theorem missing_access_witness :
    get_value_at_key id .i64 (.object [("a", .integer 1)]) (some []) "zz"
      0 "" = (false, 0, "missing key zz at /") ∧
    get_element_at_idx (.array [.null, .null, .null]) (some []) 5 = none :=
  ⟨(missing_access.2.2.1 id .i64 (.object [("a", .integer 1)]) []
      [("a", .integer 1)] "zz" 0 "" rfl (by decide)).1,
   missing_access.1 (.array [.null, .null, .null]) [] [.null, .null, .null]
      5 rfl (by norm_num)⟩

/-- C6: `insert_element` called twice with the same key and no intervening
removal returns the same target both times and leaves the tree unchanged
on the second call; on a Value, `obj["k"] = 1; obj["k"] = 2` leaves a
single pair holding 2; and key lookup returns the first matching pair. -/
theorem object_find_or_insert :
    (∀ (root : json_value) (p : jpath)
       (kvs : List (String × json_value)) (key : String),
      resolve root p = some (.object kvs) →
      ∃ (q : jpath) (root1 : json_value),
        insert_element root (some p) key = (some q, root1) ∧
        insert_element root1 (some p) key = (some q, root1)) ∧
    (json_value.assign_at_key (.object []) "k" (.integer 1) =
      .ok (.object [("k", .integer 1)]) ∧
     json_value.assign_at_key (.object [("k", .integer 1)]) "k"
       (.integer 2) = .ok (.object [("k", .integer 2)])) ∧
    (∀ (pre rest : List (String × json_value)) (key : String)
       (v : json_value),
      (∀ kv ∈ pre, kv.1 ≠ key) →
      json_value.find (.object (pre ++ (key, v) :: rest)) key =
        .ok (some v)) := by
  refine ⟨?_, ⟨rfl, rfl⟩, ?_⟩
  · intro root p kvs key hres
    cases hidx : find_pair_idx kvs key with
    | some i =>
        exact ⟨p ++ [.oidx i], root,
          by simp [insert_element, hres, hidx],
          by simp [insert_element, hres, hidx]⟩
    | none =>
        refine ⟨p ++ [.oidx kvs.length],
          updateAt root p (.object (kvs ++ [(key, .null)])), ?_, ?_⟩
        · simp [insert_element, hres, hidx]
        · have hres2 : resolve
              (updateAt root p (.object (kvs ++ [(key, .null)]))) p =
              some (.object (kvs ++ [(key, .null)])) :=
            resolve_updateAt_self _ _ _ (by simp [hres])
          have hfind := find_pair_idx_append_self kvs key .null hidx
          simp [insert_element, hres2, hfind]
  · intro pre rest key v h
    simp [json_value.find, find_pairs_first pre rest key v h]

/-- C6 witness: the double insert on an empty object and a first-match
lookup past a duplicate key. -/
theorem object_find_or_insert_witness :
    (∃ (q : jpath) (root1 : json_value),
      insert_element (.object []) (some []) "k" = (some q, root1) ∧
      insert_element root1 (some []) "k" = (some q, root1)) ∧
    json_value.find
      (.object [("a", .null), ("k", .integer 5), ("k", .integer 9)]) "k" =
      .ok (some (.integer 5)) :=
  ⟨object_find_or_insert.1 (.object []) [] [] "k" rfl,
   object_find_or_insert.2.2 [("a", .null)] [("k", .integer 9)] "k"
     (.integer 5) (by decide)⟩

theorem get_elems_fresh_fst {α : Type _} (f : Nat → Bool × α)
    (idxs : List Nat) (acc : List α) :
    (get_elems_fresh f idxs acc).1 = idxs.all (fun i => (f i).1) := by
  induction idxs generalizing acc with
  | nil => rfl
  | cons i rest ih =>
      simp only [get_elems_fresh, List.all_cons]
      cases hf : (f i).1 with
      | true => simp [hf, ih]
      | false => simp [hf]

/-- C2 counterexample: converting the array `["x"]` into a
`vector<int64_t>` fails at element 0, whose element-level conversion
produces the message "integer expected at /0"; but the whole conversion
leaves the caller's error string untouched ("init"), because the element
conversion is invoked through the error-less two-argument `get_value`
overload. -/
theorem composite_error_not_propagated :
    (get_value id (.vec .i64) (.array [.string_ "x"]) (some []) []
      "init").1 = false ∧
    (get_value id (.vec .i64) (.array [.string_ "x"]) (some []) []
      "init").2.2 = "init" ∧
    (get_value id .i64 (.array [.string_ "x"]) (some [.aidx 0]) 0
      "init").2.2 = "integer expected at /0" ∧
    ("init" : String) ≠ "integer expected at /0" :=
  ⟨rfl, rfl, rfl, by decide⟩

/-- C2 (amended): composite conversions stop at the first element failure
and return false, but only `set_value` from a fixed-size array threads the
caller's error string through the element conversions; `get_value` into a
vector or fixed-size array and `set_value` from a vector invoke the
element conversion through the error-less two-argument overload, so the
element-level message is discarded and the caller's error string is left
unchanged.  For the built-in element types, `set_value` on a valid target
always succeeds (with the error unchanged), so element-level set failures
do not arise. -/
theorem composite_error_discarded :
    (∀ (d2f : ℚ → ℚ) (t : native_type) (root : json_value) (p : jpath)
       (xs : List json_value) (v0 : List (native t)) (err : String),
      resolve root p = some (.array xs) →
      (get_value d2f (.vec t) root (some p) v0 err).2.2 = err ∧
      (get_value d2f (.vec t) root (some p) v0 err).1 =
        (List.range xs.length).all (fun i =>
          (get_value d2f t root (some (p ++ [.aidx i]))
            (native_default t) "").1)) ∧
    (∀ (d2f : ℚ → ℚ) (t : native_type) (n : Nat) (root : json_value)
       (p : jpath) (xs : List json_value) (v0 : native (.arr t n))
       (err : String),
      resolve root p = some (.array xs) → xs.length = n →
      (get_value d2f (.arr t n) root (some p) v0 err).2.2 = err) ∧
    (∀ (t : native_type) (root : json_value) (p : jpath),
      (resolve root p).isSome →
      ∀ (vs : List (native t)) (err : String),
        set_value (.vec t) root (some p) vs err =
          (true, updateAt root p (.array (vs.map (encode t))), err)) ∧
    (∀ (t : native_type) (n : Nat) (root : json_value) (p : jpath),
      (resolve root p).isSome →
      ∀ (l : native (.arr t n)) (err : String),
        set_value (.arr t n) root (some p) l err =
          (true, updateAt root p (.array (l.1.map (encode t))), err)) := by
  refine ⟨?_, ?_, ?_, ?_⟩
  · intro d2f t root p xs v0 err hres
    constructor
    · simp [get_value, hres]
    · simp [get_value, hres, get_elems_fresh_fst]
  · intro d2f t n root p xs v0 err hres hn
    subst hn
    simp [get_value, hres]
  · intro t root p hp vs err
    exact set_value_encode (.vec t) root p hp vs err
  · intro t n root p hp l err
    exact set_value_encode (.arr t n) root p hp l err

/-- C2 (amended) witness: concrete instances of the vector get and set
parts. -/
theorem composite_error_discarded_witness :
    (get_value id (.vec .i64) (.array [.integer 7]) (some []) [] "e").2.2 =
      "e" ∧
    set_value (.vec .i64) .null (some []) [5] "e" =
      (true, .array [.integer 5], "e") :=
  ⟨(composite_error_discarded.1 id .i64 (.array [.integer 7]) []
      [.integer 7] [] "e" rfl).1,
   composite_error_discarded.2.2.1 .i64 .null [] (by rfl) [5] "e"⟩

/-- C7: for every representable native value `v` of a supported type,
`set_value` into a fresh (null, root-targeted) value succeeds and stores
the exact encoding of `v`, and `get_value` back out of it succeeds and
returns `v`.  `d2f` is the `(float)` narrowing cast; a float value is
representable when narrowing its widened double is the identity, which is
the IEEE guarantee. -/
theorem roundtrip (d2f : ℚ → ℚ) (t : native_type) (v : native t)
    (hrep : representable d2f t v) (err : String) :
    set_value t .null (some []) v err = (true, encode t v, err) ∧
    get_value d2f t (encode t v) (some []) (native_default t) "" =
      (true, v, "") :=
  ⟨set_value_encode t .null [] (by rfl) v err,
   get_value_encode d2f t (encode t v) [] v hrep rfl (native_default t) ""⟩

/-- C7 witness: round trip of the `vector<int32_t>` value `[1, -2]`. -/
theorem roundtrip_witness :
    representable id (.vec .i32) [1, -2] ∧
    set_value (.vec .i32) .null (some []) [1, -2] "e" =
      (true, .array [.integer 1, .integer (-2)], "e") ∧
    get_value id (.vec .i32) (.array [.integer 1, .integer (-2)]) (some [])
      [] "" = (true, [1, -2], "") := by
  have h : representable id (.vec .i32) [1, -2] := by
    simp only [representable]
    decide
  exact ⟨h, (roundtrip id (.vec .i32) [1, -2] h "e").1,
    (roundtrip id (.vec .i32) [1, -2] h "e").2⟩

end yocto